import Mathlib

set_option autoImplicit false

namespace Aquatic

/-!
Shallow embedding of the aquatic BitTorrent tracker core:
`src/aquatic_common/src/access_list.rs`, `src/aquatic_udp/src/lib.rs`
and `src/aquatic_ws/src/lib/network/mod.rs`.
Bytes are modelled as `Nat`, machine counters wrap explicitly modulo `2^64`.
-/

/-! ## Access list (`aquatic_common/src/access_list.rs`) -/

/-- The three access list modes of `AccessListMode` in `access_list.rs`. -/
inductive AccessListMode
  | Require
  | Forbid
  | Ignore
deriving DecidableEq

/-- An access list is a finite set of 20-byte info-hashes
(`AccessList(HashSet<[u8; 20]>)`); bytes are modelled as `Nat`. -/
abbrev AccessList := Finset (List Nat)

/-- Value of one hex digit, as accepted by the `hex` crate's `val`:
digits, lowercase `a`-`f` and uppercase `A`-`F`. -/
def hexVal (c : Char) : Option Nat :=
  if '0' ≤ c ∧ c ≤ '9' then some (c.toNat - '0'.toNat)
  else if 'a' ≤ c ∧ c ≤ 'f' then some (c.toNat - 'a'.toNat + 10)
  else if 'A' ≤ c ∧ c ≤ 'F' then some (c.toNat - 'A'.toNat + 10)
  else none

/-- Decode consecutive pairs of hex digits into bytes, failing on a
non-hex digit or an odd number of digits (`hex::decode_to_slice` body). -/
def decodePairs : List Char → Option (List Nat)
  | [] => some []
  | [_] => none
  | c1 :: c2 :: rest =>
    match hexVal c1, hexVal c2, decodePairs rest with
    | some hi, some lo, some bs => some ((16 * hi + lo) :: bs)
    | _, _, _ => none

/-- `AccessList::parse_info_hash`: `hex::decode_to_slice(line, &mut [0u8; 20])`
first checks that the line has exactly 2 × 20 characters, then decodes. -/
def parse_info_hash (line : List Char) : Option (List Nat) :=
  if line.length = 40 then decodePairs line else none

/-- Contents of the access list file as handed to `update_from_path`:
`none` models a failed `File::open`, and each element of the list models
one `io::Result<String>` yielded by `reader.lines()`. -/
abbrev FileContents := Option (List (Option (List Char)))

/-- The loop body of `update_from_path`: fold over the lines, inserting each
parsed hash into the set under construction, failing on the first line read
error (`line?`) or parse error (`parse_info_hash(..)?`). -/
def buildNewList : List (Option (List Char)) → Finset (List Nat) →
    Option (Finset (List Nat))
  | [], acc => some acc
  | none :: _, _ => none
  | some line :: rest, acc =>
    match parse_info_hash line with
    | none => none
    | some h => buildNewList rest (insert h acc)

/-- `AccessList::update_from_path`: build a complete new set from the file,
then (and only then) assign it over the old one (`self.0 = new_list`).
Returns the resulting set together with `true` on success; on failure the
old set is returned unchanged together with `false`. -/
def update_from_path (self : AccessList) (file : FileContents) :
    AccessList × Bool :=
  match file with
  | none => (self, false)
  | some lines =>
    match buildNewList lines ∅ with
    | none => (self, false)
    | some newList => (newList, true)

/-- `AccessList::allows`. -/
def allows (self : AccessList) (list_type : AccessListMode)
    (info_hash_bytes : List Nat) : Bool :=
  match list_type with
  | .Require => decide (info_hash_bytes ∈ self)
  | .Forbid => !decide (info_hash_bytes ∈ self)
  | .Ignore => true

/-- The hash `h` is the decoding of some line of the (successfully opened)
file: the characterisation of the new set installed by `update_from_path`. -/
def fileDecodes (file : FileContents) (h : List Nat) : Prop :=
  ∃ lines l, file = some lines ∧ some l ∈ lines ∧ parse_info_hash l = some h

/-- A 40-character lowercase-hex line, exactly as the spec describes the
access list file format (digits and lowercase `a`-`f` only). -/
def lowercaseHexLine (line : List Char) : Bool :=
  line.length == 40 &&
    line.all (fun c => ('0' ≤ c && c ≤ '9') || ('a' ≤ c && c ≤ 'f'))

/-! ## UDP tracker setup (`aquatic_udp/src/lib.rs`, fn `run`) -/

/-- The configuration fields of `Config` that `run` consults. -/
structure UdpConfig where
  socket_workers : Nat
  request_workers : Nat
  worker_channel_size : Nat
  access_list_mode : AccessListMode

/-- A crossbeam channel is created either `unbounded()` or `bounded(cap)`. -/
inductive ChannelKind
  | unbounded
  | bounded (cap : Nat)
deriving DecidableEq

/-- The channel constructor used for every worker channel in `run`:
`if config.worker_channel_size == 0 { unbounded() } else { bounded(config.worker_channel_size) }`. -/
def mkWorkerChannel (size : Nat) : ChannelKind :=
  if size = 0 then .unbounded else .bounded size

/-- The channel topology produced by `run` before spawning workers:
which channels exist and which worker holds which endpoint.
Channels are identified by their index in their creation loop. -/
structure UdpSetup where
  requestChannelKinds : List ChannelKind
  responseChannelKinds : List ChannelKind
  socketWorkerRequestSenders : Nat → List Nat
  requestWorkerRequestReceiver : Nat → Nat
  requestWorkerResponseSenders : Nat → List Nat
  socketWorkerResponseReceiver : Nat → Nat

/-- The channel-creation and endpoint-distribution part of `run`:
one request channel per request worker index and one response channel per
socket worker index; request worker `i` takes the receiver of request
channel `i` and a `ConnectedResponseSender` over clones of all response
senders; socket worker `i` takes a `ConnectedRequestSender` over clones of
all request senders and the receiver of response channel `i`. -/
def runChannelSetup (cfg : UdpConfig) : UdpSetup where
  requestChannelKinds :=
    (List.range cfg.request_workers).map
      (fun _ => mkWorkerChannel cfg.worker_channel_size)
  responseChannelKinds :=
    (List.range cfg.socket_workers).map
      (fun _ => mkWorkerChannel cfg.worker_channel_size)
  socketWorkerRequestSenders := fun _ => List.range cfg.request_workers
  requestWorkerRequestReceiver := fun i => i
  requestWorkerResponseSenders := fun _ => List.range cfg.socket_workers
  socketWorkerResponseReceiver := fun i => i

/-- The two signals the supervisor loop of `run` subscribes to. -/
inductive UnixSignal
  | SIGUSR1
  | SIGTERM
deriving DecidableEq

/-- Modelled from the spec: `aquatic_common::access_list::update_access_list`
(its body is not among the provided sources; only its callers are). Per the
spec, the supervisor refreshes the shared access list from the configured
file — a no-op when the list functionality is off (`ignore`) — and a failed
load surfaces as an error while the installed list stays as it was. -/
def update_access_list (mode : AccessListMode) (file : FileContents)
    (l : AccessList) : Except Unit AccessList :=
  match mode with
  | .Ignore => .ok l
  | _ =>
    match update_from_path l file with
    | (l2, true) => .ok l2
    | (_, false) => .error ()

/-- The signal loop at the end of `run`
(`for signal in &mut signals { ... }`): on `SIGUSR1` reload the access list,
discarding any error (`let _ = update_access_list(..)`), and keep looping;
on `SIGTERM` break out. Each delivered signal is paired with the file
contents on disk at the moment it is handled. Returns the final list and
whether the loop was exited via `SIGTERM`. -/
def supervisorLoop (mode : AccessListMode) (l : AccessList) :
    List (UnixSignal × FileContents) → AccessList × Bool
  | [] => (l, false)
  | (.SIGUSR1, f) :: rest =>
    supervisorLoop mode
      (match update_access_list mode f l with
       | .ok l2 => l2
       | .error _ => l) rest
  | (.SIGTERM, _) :: _ => (l, true)

/-- Observable outcome of `run`. -/
structure RunOutcome where
  startupOk : Bool
  workersSpawned : Bool
  cleanShutdown : Bool
  finalList : AccessList

/-- `run`: load the access list (`update_access_list(..)?`) before anything
else — a failure returns the error with no worker spawned — then spawn the
workers and enter the signal loop; when the loop breaks on `SIGTERM`,
`run` returns `Ok(())`. -/
def udpRun (cfg : UdpConfig) (initFile : FileContents)
    (signals : List (UnixSignal × FileContents)) : RunOutcome :=
  match update_access_list cfg.access_list_mode initFile ∅ with
  | .error _ =>
    { startupOk := false, workersSpawned := false,
      cleanShutdown := false, finalList := ∅ }
  | .ok l =>
    let r := supervisorLoop cfg.access_list_mode l signals
    { startupOk := true, workersSpawned := true,
      cleanShutdown := r.2, finalList := r.1 }

/-! ## WebSocket socket worker (`aquatic_ws/src/lib/network/mod.rs`) -/

/-- Peer socket addresses, abstracted. -/
abbrev PeerAddr := Nat

/-- Decoded in/out messages, abstracted. -/
abbrev WsMsg := Nat

/-- `usize` arithmetic wraps modulo `2^64`. -/
def USIZE_MOD : Nat := 2 ^ 64

/-- Outcome of one `ws.read_message()` attempt on an established
connection, together with the `InMessage::from_ws_message` decoding:
a message that decodes, a message that does not (`from_ws_message`
returns `None`), a `WouldBlock`, or any other (fatal) error. -/
inductive ReadEvent
  | msgOk (m : WsMsg)
  | msgSkip
  | wouldBlock
  | fatal
deriving DecidableEq

/-- Outcome of one `ws.write_message(..)` attempt. -/
inductive WriteEvent
  | ok
  | wouldBlock
  | fatal
deriving DecidableEq

/-- Modelled from the spec: the `EstablishedWs` of the missing
`network/connection.rs` — the peer's socket address plus the underlying
stream, which we model by the sequences of outcomes its future reads and
writes will produce. -/
structure EstablishedWs where
  peer_addr : PeerAddr
  reads : List ReadEvent
  writes : List WriteEvent
deriving DecidableEq

/-- Modelled from the spec: the connection state machine of the missing
`network/connection.rs` — TCP → (optional TLS) → WebSocket handshake →
established, with `stepsLeft` non-blocking handshake stages remaining. -/
inductive ConnState
  | handshaking (stepsLeft : Nat)
  | established
deriving DecidableEq

/-- Modelled from the spec: `Connection` of the missing
`network/connection.rs` — a per-connection deadline `valid_until` plus the
state machine; `Connection::get_established_ws` yields the stream exactly
when the state is `established`. -/
structure Connection where
  valid_until : Nat
  state : ConnState
  ws : EstablishedWs
deriving DecidableEq

/-- Modelled from the spec: `Connection::new(valid_until, stream)` — a fresh
connection in the initial handshake state stamped with the given deadline. -/
def Connection.new (vu : Nat) (ws : EstablishedWs) (steps : Nat) : Connection :=
  { valid_until := vu, state := .handshaking steps, ws := ws }

/-- The connection table `ConnectionMap = HashMap<Token, Connection>`,
modelled as an association list from token to connection. -/
abbrev ConnMap := List (Nat × Connection)

/-- Map lookup. -/
def connFind (m : ConnMap) (t : Nat) : Option Connection :=
  (m.find? (fun p => p.1 == t)).map Prod.snd

/-- Map removal; also the model of `remove_connection_if_exists` from the
missing `network/utils.rs` (which deregisters the stream and drops the
entry). -/
def connErase (m : ConnMap) (t : Nat) : ConnMap :=
  m.filter (fun p => p.1 != t)

/-- Map insertion, replacing any entry under the same token. -/
def connInsert (m : ConnMap) (t : Nat) (c : Connection) : ConnMap :=
  (t, c) :: connErase m t

/-- `ValidUntil::new(max_connection_age)`: the instant
`now + max_connection_age`, computed once per poll iteration. -/
def ValidUntil.new (now age : Nat) : Nat := now + age

/-- `ConnectionMeta` from the missing `common` module, as used in
`mod.rs`: originating worker, poll token and peer address. -/
structure ConnectionMeta where
  worker_index : Nat
  poll_token : Nat
  peer_addr : PeerAddr
deriving DecidableEq

/-- The established-connection read loop inside
`run_handshakes_and_read_messages`: read until `WouldBlock` (stop, keep
the connection), forwarding each decoded message tagged with its
`ConnectionMeta`; on any other error remove the connection and stop.
Returns the unconsumed read events, whether the connection was removed,
and the forwarded messages in order. -/
def readLoop (swi token : Nat) (pa : PeerAddr) :
    List ReadEvent → List ReadEvent × Bool × List (ConnectionMeta × WsMsg)
  | [] => ([], false, [])
  | .wouldBlock :: rest => (rest, false, [])
  | .msgOk m :: rest =>
    let r := readLoop swi token pa rest
    (r.1, r.2.1,
      (⟨swi, token, pa⟩, m) :: r.2.2)
  | .msgSkip :: rest => readLoop swi token pa rest
  | .fatal :: _ => ([], true, [])

/-- `run_handshakes_and_read_messages`, with the handshake advancement
(`Connection::advance_handshakes`, missing from the sources) modelled from
the spec: each readable event advances one non-blocking stage, stamping the
connection with the fresh deadline, and yields on the equivalent of
`WouldBlock`; a completed handshake lets the loop fall through to reading.
An established connection goes straight to the read loop; note that this
branch never touches `valid_until`. -/
def run_handshakes_and_read_messages (swi : Nat) (conns : ConnMap)
    (token : Nat) (vu : Nat) : ConnMap × List (ConnectionMeta × WsMsg) :=
  match connFind conns token with
  | none => (conns, [])
  | some c =>
    match c.state with
    | .handshaking (n + 1) =>
      (connInsert conns token { c with state := .handshaking n, valid_until := vu }, [])
    | .handshaking 0 =>
      let c2 : Connection := { c with state := .established, valid_until := vu }
      let r := readLoop swi token c2.ws.peer_addr c2.ws.reads
      (if r.2.1 then connErase conns token
       else connInsert conns token { c2 with ws := { c2.ws with reads := r.1 } }, r.2.2)
    | .established =>
      let r := readLoop swi token c.ws.peer_addr c.ws.reads
      (if r.2.1 then connErase conns token
       else connInsert conns token { c with ws := { c.ws with reads := r.1 } }, r.2.2)

/-- Outcome of one `listener.accept()` attempt: a new stream (with the
handshake stages it will need and its future I/O), `WouldBlock`, or
another error (logged and skipped). -/
inductive AcceptEvent
  | conn (ws : EstablishedWs) (steps : Nat)
  | wouldBlock
  | otherErr
deriving DecidableEq

/-- The token-counter step of `accept_new_streams`:
`poll_token_counter.0 = poll_token_counter.0.wrapping_add(1); if 0 { = 1 }`. -/
def wrapToken (counter : Nat) : Nat :=
  let next := (counter + 1) % USIZE_MOD
  if next = 0 then 1 else next

/-- `accept_new_streams`: loop over `listener.accept()` outcomes; each new
stream gets the next counter token (wrapping, skipping `0`), any existing
connection under that token is removed (`remove_connection_if_exists`),
and a fresh `Connection::new(valid_until, stream)` is inserted; stop on
`WouldBlock`, skip other errors. Returns the map, the final counter and
the tokens assigned in order. -/
def accept_new_streams (accepts : List AcceptEvent) (conns : ConnMap)
    (vu : Nat) (counter : Nat) : ConnMap × Nat × List Nat :=
  match accepts with
  | [] => (conns, counter, [])
  | .wouldBlock :: _ => (conns, counter, [])
  | .otherErr :: rest => accept_new_streams rest conns vu counter
  | .conn ws steps :: rest =>
    let token := wrapToken counter
    let conns2 := connInsert (connErase conns token) token (Connection.new vu ws steps)
    let r := accept_new_streams rest conns2 vu token
    (r.1, r.2.1, token :: r.2.2)

/-- Modelled from the spec: `remove_inactive_connections` from the missing
`network/utils.rs` — prune the connection table of entries whose deadline
has passed (`valid_until < now`). -/
def remove_inactive_connections (now : Nat) (conns : ConnMap) : ConnMap :=
  conns.filter (fun p => !decide (p.2.valid_until < now))

/-- The per-iteration worker state of `run_socket_worker` that the
cleaning cadence concerns: the connection table and `iter_counter`. -/
structure IterState where
  conns : ConnMap
  iter_counter : Nat

/-- The tail of one iteration of the `run_socket_worker` poll loop:
`if iter_counter % 128 == 0 { remove_inactive_connections(..) }` followed
by `iter_counter = iter_counter.wrapping_add(1)`. Returns the new state
and whether eviction ran on this iteration. -/
def socket_worker_iteration (now : Nat) (st : IterState) : IterState × Bool :=
  let cleaned := st.iter_counter % 128 = 0
  ({ conns := if cleaned then remove_inactive_connections now st.conns else st.conns,
     iter_counter := (st.iter_counter + 1) % USIZE_MOD },
   cleaned)

/-- The value of `iter_counter` at the start of poll iteration `k`:
`0` initially, wrapping-incremented once per iteration. -/
def iterCounterAt : Nat → Nat
  | 0 => 0
  | k + 1 => (iterCounterAt k + 1) % USIZE_MOD

/-- One loop-body step of `send_out_messages` for a single drained
`(ConnectionMeta, OutMessage)`: look the token up; only an established
connection whose recorded peer address equals the metadata's is written
to; on a write `WouldBlock` the message is skipped, on any other write
error the connection is removed. Returns the map and whether the message
was written to the peer. -/
def send_one (conns : ConnMap) (meta : ConnectionMeta) (msg : WsMsg) :
    ConnMap × Bool :=
  match connFind conns meta.poll_token with
  | none => (conns, false)
  | some c =>
    match c.state with
    | .handshaking _ => (conns, false)
    | .established =>
      if c.ws.peer_addr = meta.peer_addr then
        match c.ws.writes with
        | [] => (conns, false)
        | .ok :: rest =>
          (connInsert conns meta.poll_token { c with ws := { c.ws with writes := rest } }, true)
        | .wouldBlock :: rest =>
          (connInsert conns meta.poll_token { c with ws := { c.ws with writes := rest } }, false)
        | .fatal :: _ => (connErase conns meta.poll_token, false)
      else (conns, false)

/-- `send_out_messages`: drain the out-message channel, processing each
message with the loop body `send_one`; collect the messages actually
written to their peers, in order. -/
def send_out_messages (drain : List (ConnectionMeta × WsMsg)) (conns : ConnMap) :
    ConnMap × List (ConnectionMeta × WsMsg) :=
  match drain with
  | [] => (conns, [])
  | (meta, msg) :: rest =>
    let s := send_one conns meta msg
    let r := send_out_messages rest s.1
    (r.1, if s.2 then (meta, msg) :: r.2 else r.2)

/-! ## Theorems: access list -/

theorem decodePairs_isSome : ∀ l : List Char,
    (decodePairs l).isSome = true ↔
      l.length % 2 = 0 ∧ ∀ c ∈ l, (hexVal c).isSome = true
  | [] => by simp [decodePairs]
  | [c] => by simp [decodePairs]
  | c1 :: c2 :: rest => by
    have ih := decodePairs_isSome rest
    have hstep : (decodePairs (c1 :: c2 :: rest)).isSome =
        ((hexVal c1).isSome && ((hexVal c2).isSome && (decodePairs rest).isSome)) := by
      rcases h1 : hexVal c1 with _ | v1 <;> rcases h2 : hexVal c2 with _ | v2 <;>
        rcases h3 : decodePairs rest with _ | bs <;> simp [decodePairs, h1, h2, h3]
    rw [hstep]
    simp only [Bool.and_eq_true, ih, List.length_cons, List.mem_cons]
    constructor
    · rintro ⟨hc1, hc2, hm, hall⟩
      refine ⟨by omega, ?_⟩
      rintro c (rfl | rfl | hc)
      · exact hc1
      · exact hc2
      · exact hall c hc
    · rintro ⟨hm, hall⟩
      exact ⟨hall c1 (Or.inl rfl), hall c2 (Or.inr (Or.inl rfl)),
        by omega, fun c hc => hall c (Or.inr (Or.inr hc))⟩

theorem parse_info_hash_isSome (l : List Char) :
    (parse_info_hash l).isSome = true ↔
      l.length = 40 ∧ ∀ c ∈ l, (hexVal c).isSome = true := by
  unfold parse_info_hash
  by_cases hl : l.length = 40
  · simp [hl, decodePairs_isSome l, hl]
  · simp [hl]

theorem buildNewList_isSome : ∀ (lines : List (Option (List Char)))
    (acc : Finset (List Nat)),
    (buildNewList lines acc).isSome = true ↔
      ∀ ol ∈ lines, ∃ l, ol = some l ∧ (parse_info_hash l).isSome = true
  | [], acc => by simp [buildNewList]
  | none :: rest, acc => by simp [buildNewList]
  | some line :: rest, acc => by
    rcases hp : parse_info_hash line with _ | hh <;>
      simp_all [buildNewList, hp, buildNewList_isSome rest]

theorem buildNewList_mem : ∀ (lines : List (Option (List Char)))
    (acc s : Finset (List Nat)), buildNewList lines acc = some s →
    ∀ h, h ∈ s ↔ h ∈ acc ∨ ∃ l, some l ∈ lines ∧ parse_info_hash l = some h
  | [], acc, s => by
    simp only [buildNewList, Option.some.injEq]
    rintro rfl h
    simp
  | none :: rest, acc, s => by simp [buildNewList]
  | some line :: rest, acc, s => by
    rcases hp : parse_info_hash line with _ | hh
    · simp [buildNewList, hp]
    · intro hb h
      have ih := buildNewList_mem rest (insert hh acc) s (by
        simpa [buildNewList, hp] using hb) h
      rw [ih]
      simp only [Finset.mem_insert, List.mem_cons]
      constructor
      · rintro ((rfl | ha) | ⟨l, hl, hpl⟩)
        · exact Or.inr ⟨line, Or.inl rfl, hp⟩
        · exact Or.inl ha
        · exact Or.inr ⟨l, Or.inr hl, hpl⟩
      · rintro (ha | ⟨l, (hl | hl), hpl⟩)
        · exact Or.inl (Or.inr ha)
        · cases hl
          rw [hp] at hpl
          exact Or.inl (Or.inl (Option.some.injEq _ _ ▸ hpl.symm))
        · exact Or.inr ⟨l, hl, hpl⟩

/-- C2: `update_from_path` first builds the complete new set and only then
installs it: the resulting list is either the untouched old list or exactly
the set of hashes decoded from the file, never a partial mixture; and on a
failed reload the old list is left unchanged. -/
theorem update_from_path_atomic (self : AccessList) (file : FileContents) :
    ((update_from_path self file).2 = false →
      (update_from_path self file).1 = self)
    ∧ ((update_from_path self file).1 = self
       ∨ ((update_from_path self file).2 = true
          ∧ ∀ h, h ∈ (update_from_path self file).1 ↔ fileDecodes file h)) := by
  rcases file with _ | lines
  · exact ⟨fun _ => rfl, Or.inl rfl⟩
  · rcases hb : buildNewList lines ∅ with _ | s
    · simp [update_from_path, hb]
    · refine ⟨?_, Or.inr ⟨by simp [update_from_path, hb], fun h => ?_⟩⟩
      · simp [update_from_path, hb]
      · have := buildNewList_mem lines ∅ s hb h
        simp only [update_from_path, hb, fileDecodes]
        rw [this]
        simp

theorem update_from_path_atomic_witness :
    (update_from_path ∅ none).2 = false ∧ (update_from_path ∅ none).1 = ∅ :=
  ⟨rfl, (update_from_path_atomic ∅ none).1 rfl⟩

/-- C3: `allows` returns `true` unconditionally in mode `Ignore`, returns
membership of the hash in the set in mode `Require`, and returns
non-membership in mode `Forbid`. -/
theorem allows_mode_semantics (l : AccessList) (h : List Nat) :
    allows l .Ignore h = true
    ∧ (allows l .Require h = true ↔ h ∈ l)
    ∧ (allows l .Forbid h = true ↔ h ∉ l) := by
  refine ⟨rfl, ?_, ?_⟩ <;> simp [allows]

theorem allows_mode_semantics_witness :
    allows ∅ .Ignore [] = true
    ∧ (allows ∅ .Require [] = true ↔ [] ∈ (∅ : AccessList))
    ∧ (allows ∅ .Forbid [] = true ↔ [] ∉ (∅ : AccessList)) :=
  allows_mode_semantics ∅ []

/-- C4 counterexample: a line of forty uppercase `A`s is not a 40-character
lowercase hex line, yet `update_from_path` accepts the file containing it
(the `hex` crate decodes uppercase digits too) and installs the decoded
hash `0xAA…AA`. -/
theorem update_from_path_accepts_uppercase :
    lowercaseHexLine (List.replicate 40 'A') = false
    ∧ (update_from_path ∅ (some [some (List.replicate 40 'A')])).2 = true
    ∧ List.replicate 20 170
        ∈ (update_from_path ∅ (some [some (List.replicate 40 'A')])).1 := by
  refine ⟨by decide, by decide, by decide⟩

/-- C4 (amended): `update_from_path` succeeds on a file if and only if every
line is exactly 40 hex characters — upper- or lowercase digits both
accepted, so empty lines and lines of any other length fail — and on
success the resulting set contains exactly the hashes decoded from the
file's lines. -/
theorem update_from_path_hex_lines (self : AccessList)
    (lines : List (Option (List Char))) :
    ((update_from_path self (some lines)).2 = true ↔
      ∀ ol ∈ lines, ∃ l, ol = some l ∧ l.length = 40
        ∧ ∀ c ∈ l, (hexVal c).isSome = true)
    ∧ ((update_from_path self (some lines)).2 = true →
      ∀ h, h ∈ (update_from_path self (some lines)).1 ↔
        ∃ l, some l ∈ lines ∧ parse_info_hash l = some h) := by
  constructor
  · rcases hb : buildNewList lines ∅ with _ | s
    · have hs := buildNewList_isSome lines ∅
      rw [hb] at hs
      simp only [Option.isSome_none, Bool.false_eq_true, false_iff] at hs
      simp only [update_from_path, hb, Bool.false_eq_true, false_iff]
      intro hc
      exact hs (fun ol hol => by
        obtain ⟨l, rfl, h40, hall⟩ := hc ol hol
        exact ⟨l, rfl, (parse_info_hash_isSome l).2 ⟨h40, hall⟩⟩)
    · have hs := buildNewList_isSome lines ∅
      rw [hb] at hs
      simp only [Option.isSome_some, true_iff] at hs
      simp only [update_from_path, hb, true_iff]
      intro ol hol
      obtain ⟨l, rfl, hp⟩ := hs ol hol
      obtain ⟨h40, hall⟩ := (parse_info_hash_isSome l).1 hp
      exact ⟨l, rfl, h40, hall⟩
  · rcases hb : buildNewList lines ∅ with _ | s
    · simp [update_from_path, hb]
    · intro _ h
      have := buildNewList_mem lines ∅ s hb h
      simp only [update_from_path, hb]
      rw [this]
      simp

theorem update_from_path_hex_lines_witness :
    [] ∈ (update_from_path ∅ (some [])).1 ↔
      ∃ l, some l ∈ ([] : List (Option (List Char)))
        ∧ parse_info_hash l = some [] :=
  (update_from_path_hex_lines ∅ []).2 rfl []

/-! ## Theorems: UDP run setup and supervisor -/

/-- C1 counterexample: with 2 request workers and 2 socket workers, `run`
creates 2 + 2 = 4 worker channels, not 2×2 + 2×2 = 8; and channel endpoints
are shared: socket workers 0 and 1 both hold a sender for request
channel 0. -/
theorem run_channel_topology_not_per_pair :
    ((runChannelSetup ⟨2, 2, 0, .Ignore⟩).requestChannelKinds.length
        + (runChannelSetup ⟨2, 2, 0, .Ignore⟩).responseChannelKinds.length = 4)
    ∧ (4 : Nat) ≠ 2 * 2 + 2 * 2
    ∧ 0 ∈ (runChannelSetup ⟨2, 2, 0, .Ignore⟩).socketWorkerRequestSenders 0
    ∧ 0 ∈ (runChannelSetup ⟨2, 2, 0, .Ignore⟩).socketWorkerRequestSenders 1 := by
  decide

/-- C1 (amended): `run` creates R + S channels in total — one request channel
per request worker and one response channel per socket worker. Each request
worker is the sole holder of its own request receiver, but every socket
worker holds a sender clone of every request channel; symmetrically every
request worker holds a sender clone of every response channel, whose
receiver is held only by the corresponding socket worker. The channels are
multi-producer single-consumer, not one-per-pair SPSC. -/
theorem run_channel_topology (cfg : UdpConfig) :
    (runChannelSetup cfg).requestChannelKinds.length = cfg.request_workers
    ∧ (runChannelSetup cfg).responseChannelKinds.length = cfg.socket_workers
    ∧ (∀ s, (runChannelSetup cfg).socketWorkerRequestSenders s =
        List.range cfg.request_workers)
    ∧ (∀ i, (runChannelSetup cfg).requestWorkerRequestReceiver i = i)
    ∧ (∀ r, (runChannelSetup cfg).requestWorkerResponseSenders r =
        List.range cfg.socket_workers)
    ∧ (∀ i, (runChannelSetup cfg).socketWorkerResponseReceiver i = i) := by
  refine ⟨by simp [runChannelSetup], by simp [runChannelSetup],
    fun _ => rfl, fun _ => rfl, fun _ => rfl, fun _ => rfl⟩

theorem run_channel_topology_witness :
    (runChannelSetup ⟨3, 2, 0, .Ignore⟩).requestChannelKinds.length = 2 :=
  (run_channel_topology ⟨3, 2, 0, .Ignore⟩).1

/-- C6: every request channel and every response channel created by `run` is
unbounded when the configured `worker_channel_size` is 0 and bounded with
capacity exactly `worker_channel_size` otherwise. -/
theorem worker_channel_size_semantics (cfg : UdpConfig) (k : ChannelKind)
    (hk : k ∈ (runChannelSetup cfg).requestChannelKinds
       ∨ k ∈ (runChannelSetup cfg).responseChannelKinds) :
    (cfg.worker_channel_size = 0 → k = .unbounded)
    ∧ (0 < cfg.worker_channel_size → k = .bounded cfg.worker_channel_size) := by
  have hek : k = mkWorkerChannel cfg.worker_channel_size := by
    rcases hk with hk | hk <;>
    · simp only [runChannelSetup, List.mem_map] at hk
      obtain ⟨a, _, hkk⟩ := hk
      exact hkk.symm
  subst hek
  constructor
  · intro h0
    simp [mkWorkerChannel, h0]
  · intro hpos
    simp [mkWorkerChannel, Nat.pos_iff_ne_zero.1 hpos]

theorem worker_channel_size_semantics_witness :
    ChannelKind.bounded 3 ∈ (runChannelSetup ⟨1, 1, 3, .Ignore⟩).requestChannelKinds
    ∧ (((⟨1, 1, 3, .Ignore⟩ : UdpConfig).worker_channel_size = 0 →
          ChannelKind.bounded 3 = .unbounded)
       ∧ (0 < (⟨1, 1, 3, .Ignore⟩ : UdpConfig).worker_channel_size →
          ChannelKind.bounded 3 =
            .bounded (⟨1, 1, 3, .Ignore⟩ : UdpConfig).worker_channel_size)) :=
  ⟨by decide,
    worker_channel_size_semantics ⟨1, 1, 3, .Ignore⟩ (.bounded 3) (Or.inl (by decide))⟩

/-- C5: a failed initial access-list load makes `run` return the error with
no worker spawned; in the supervisor loop a `SIGUSR1` reloads the access
list (keeping the old list when the reload fails, since the result is
discarded) and continues looping, while a `SIGTERM` breaks out of the
loop, after which `run` returns `Ok(())` — a clean shutdown. -/
theorem udp_run_signal_handling (cfg : UdpConfig) (f g : FileContents)
    (l : AccessList) (signals rest : List (UnixSignal × FileContents)) :
    (update_access_list cfg.access_list_mode f ∅ = .error () →
      (udpRun cfg f signals).startupOk = false
      ∧ (udpRun cfg f signals).workersSpawned = false)
    ∧ (supervisorLoop cfg.access_list_mode l ((.SIGUSR1, g) :: rest)
        = supervisorLoop cfg.access_list_mode
            (match update_access_list cfg.access_list_mode g l with
             | .ok l2 => l2
             | .error _ => l) rest)
    ∧ (supervisorLoop cfg.access_list_mode l ((.SIGTERM, g) :: rest) = (l, true))
    ∧ (update_access_list cfg.access_list_mode f ∅ = .ok l →
        (udpRun cfg f ((.SIGTERM, g) :: rest)).cleanShutdown = true
        ∧ (udpRun cfg f ((.SIGTERM, g) :: rest)).startupOk = true) := by
  refine ⟨fun he => ?_, rfl, rfl, fun ho => ?_⟩
  · constructor <;> simp [udpRun, he]
  · constructor <;> simp [udpRun, ho, supervisorLoop]

theorem udp_run_signal_handling_witness :
    update_access_list AccessListMode.Require none ∅ = .error ()
    ∧ ((udpRun ⟨1, 1, 0, .Require⟩ none []).startupOk = false
       ∧ (udpRun ⟨1, 1, 0, .Require⟩ none []).workersSpawned = false) :=
  ⟨rfl, (udp_run_signal_handling ⟨1, 1, 0, .Require⟩ none none ∅ [] []).1 rfl⟩

/-! ## Theorems: WebSocket socket worker -/

theorem connFind_connInsert_self (m : ConnMap) (t : Nat) (c : Connection) :
    connFind (connInsert m t c) t = some c := by
  simp [connFind, connInsert]

theorem connFind_connErase_self (m : ConnMap) (t : Nat) :
    connFind (connErase m t) t = none := by
  simp only [connFind, connErase, Option.map_eq_none', List.find?_eq_none,
    List.mem_filter]
  intro p hp
  simpa using hp.2

theorem connErase_subset (m : ConnMap) (t : Nat) :
    ∀ p ∈ connErase m t, p ∈ m := by
  intro p hp
  exact (List.mem_filter.1 hp).1

theorem connErase_keys_ne (m : ConnMap) (t : Nat) :
    ∀ p ∈ connErase m t, p.1 ≠ t := by
  intro p hp
  simpa using (List.mem_filter.1 hp).2

theorem connErase_keys_nodup (m : ConnMap) (t : Nat)
    (h : (m.map Prod.fst).Nodup) : ((connErase m t).map Prod.fst).Nodup :=
  ((m.filter_sublist).map Prod.fst).nodup h

theorem connInsert_keys_nodup (m : ConnMap) (t : Nat) (c : Connection)
    (h : (m.map Prod.fst).Nodup) :
    ((connInsert m t c).map Prod.fst).Nodup := by
  simp only [connInsert, List.map_cons, List.nodup_cons]
  refine ⟨?_, connErase_keys_nodup m t h⟩
  intro hmem
  obtain ⟨p, hp, hpt⟩ := List.mem_map.1 hmem
  exact connErase_keys_ne m t p hp hpt

/-- C7 counterexample: on an already-established connection with deadline 5,
`run_handshakes_and_read_messages` called with the fresh
`valid_until = ValidUntil.new 4 6 = now + max_connection_age = 10`
successfully reads and forwards a message, yet leaves the connection's
`valid_until` at 5, not 10: a successful read does not refresh the
deadline. -/
theorem read_does_not_refresh_deadline :
    ((run_handshakes_and_read_messages 0
        [(1, ⟨5, .established, ⟨9, [.msgOk 7, .wouldBlock], []⟩⟩)] 1
        (ValidUntil.new 4 6)).2 ≠ [])
    ∧ ((connFind (run_handshakes_and_read_messages 0
        [(1, ⟨5, .established, ⟨9, [.msgOk 7, .wouldBlock], []⟩⟩)] 1
        (ValidUntil.new 4 6)).1 1).map Connection.valid_until = some 5)
    ∧ ValidUntil.new 4 6 ≠ 5 := by
  refine ⟨by decide, by decide, by decide⟩

/-- C7 (amended): reading never modifies an established connection's
deadline: after `run_handshakes_and_read_messages` on a connection that is
already established, the connection is either removed (fatal read error)
or keeps its original `valid_until` with only its pending reads consumed —
the fresh `valid_until` argument is applied only while handshakes advance,
so a connection that keeps reading is still evicted once its fixed
deadline passes. -/
theorem established_deadline_not_refreshed (swi : Nat) (conns : ConnMap)
    (token vu : Nat) (c : Connection)
    (hfind : connFind conns token = some c) (hest : c.state = .established) :
    connFind (run_handshakes_and_read_messages swi conns token vu).1 token = none
    ∨ ∃ rem, connFind (run_handshakes_and_read_messages swi conns token vu).1 token
        = some { c with ws := { c.ws with reads := rem } } := by
  simp only [run_handshakes_and_read_messages, hfind, hest]
  by_cases hr : (readLoop swi token c.ws.peer_addr c.ws.reads).2.1
  · exact Or.inl (by simp [hr, connFind_connErase_self])
  · exact Or.inr ⟨(readLoop swi token c.ws.peer_addr c.ws.reads).1,
      by simp [hr, connFind_connInsert_self]⟩

theorem established_deadline_not_refreshed_witness :
    connFind [(2, (⟨7, .established, ⟨3, [], []⟩⟩ : Connection))] 2
        = some (⟨7, .established, ⟨3, [], []⟩⟩ : Connection)
    ∧ (connFind (run_handshakes_and_read_messages 0
          [(2, (⟨7, .established, ⟨3, [], []⟩⟩ : Connection))] 2 9).1 2 = none
       ∨ ∃ rem, connFind (run_handshakes_and_read_messages 0
          [(2, (⟨7, .established, ⟨3, [], []⟩⟩ : Connection))] 2 9).1 2
          = some (⟨7, .established, ⟨3, rem, []⟩⟩ : Connection)) :=
  ⟨by decide, established_deadline_not_refreshed 0
    [(2, (⟨7, .established, ⟨3, [], []⟩⟩ : Connection))] 2 9
    (⟨7, .established, ⟨3, [], []⟩⟩ : Connection) (by decide) rfl⟩

theorem wrapToken_ne_zero (n : Nat) : wrapToken n ≠ 0 := by
  unfold wrapToken
  by_cases hz : (n + 1) % USIZE_MOD = 0 <;> simp [hz]

theorem accept_new_streams_tokens_ne_zero : ∀ (accepts : List AcceptEvent)
    (conns : ConnMap) (vu counter : Nat),
    ∀ t ∈ (accept_new_streams accepts conns vu counter).2.2, t ≠ 0
  | [], conns, vu, counter => by simp [accept_new_streams]
  | .wouldBlock :: rest, conns, vu, counter => by simp [accept_new_streams]
  | .otherErr :: rest, conns, vu, counter =>
    accept_new_streams_tokens_ne_zero rest conns vu counter
  | .conn ws steps :: rest, conns, vu, counter => by
    intro t ht
    simp only [accept_new_streams, List.mem_cons] at ht
    rcases ht with rfl | ht2
    · exact wrapToken_ne_zero counter
    · exact accept_new_streams_tokens_ne_zero rest _ vu _ t ht2

theorem accept_new_streams_no_zero : ∀ (accepts : List AcceptEvent)
    (conns : ConnMap) (vu counter : Nat), (∀ p ∈ conns, p.1 ≠ 0) →
    ∀ p ∈ (accept_new_streams accepts conns vu counter).1, p.1 ≠ 0
  | [], conns, vu, counter, h => h
  | .wouldBlock :: rest, conns, vu, counter, h => h
  | .otherErr :: rest, conns, vu, counter, h =>
    accept_new_streams_no_zero rest conns vu counter h
  | .conn ws steps :: rest, conns, vu, counter, h => by
    have h2 : ∀ p ∈ connInsert (connErase conns (wrapToken counter))
        (wrapToken counter) (Connection.new vu ws steps), p.1 ≠ 0 := by
      intro p hp
      rcases List.mem_cons.1 hp with rfl | hp2
      · exact wrapToken_ne_zero counter
      · exact h p (connErase_subset conns _ p
          (connErase_subset (connErase conns _) _ p hp2))
    exact accept_new_streams_no_zero rest _ vu (wrapToken counter) h2

theorem accept_new_streams_nodup : ∀ (accepts : List AcceptEvent)
    (conns : ConnMap) (vu counter : Nat), (conns.map Prod.fst).Nodup →
    ((accept_new_streams accepts conns vu counter).1.map Prod.fst).Nodup
  | [], conns, vu, counter, h => h
  | .wouldBlock :: rest, conns, vu, counter, h => h
  | .otherErr :: rest, conns, vu, counter, h =>
    accept_new_streams_nodup rest conns vu counter h
  | .conn ws steps :: rest, conns, vu, counter, h =>
    accept_new_streams_nodup rest _ vu (wrapToken counter)
      (connInsert_keys_nodup _ _ _ (connErase_keys_nodup conns _ h))

/-- C8: `accept_new_streams` assigns each accepted stream the next token by
wrapping increment of the counter, resetting a wrapped-to-0 counter to 1 so
that token 0 (the listener's) is never assigned; it removes any existing
connection under a reassigned token before inserting, so a table without
token 0 and without duplicate tokens stays that way: every token maps to at
most one connection. -/
theorem accept_new_streams_tokens (accepts : List AcceptEvent)
    (conns : ConnMap) (vu counter : Nat) :
    (∀ n, wrapToken n ≠ 0 ∧ ((n + 1) % USIZE_MOD = 0 → wrapToken n = 1)
       ∧ ((n + 1) % USIZE_MOD ≠ 0 → wrapToken n = (n + 1) % USIZE_MOD))
    ∧ (∀ t ∈ (accept_new_streams accepts conns vu counter).2.2, t ≠ 0)
    ∧ ((∀ p ∈ conns, p.1 ≠ 0) →
        ∀ p ∈ (accept_new_streams accepts conns vu counter).1, p.1 ≠ 0)
    ∧ ((conns.map Prod.fst).Nodup →
        ((accept_new_streams accepts conns vu counter).1.map Prod.fst).Nodup) := by
  refine ⟨?_, accept_new_streams_tokens_ne_zero accepts conns vu counter,
    accept_new_streams_no_zero accepts conns vu counter,
    accept_new_streams_nodup accepts conns vu counter⟩
  intro n
  refine ⟨wrapToken_ne_zero n, ?_, ?_⟩ <;>
    · intro hz
      unfold wrapToken
      simp [hz]

theorem accept_new_streams_tokens_witness :
    (accept_new_streams [.conn ⟨1, [], []⟩ 0] [] 0 (USIZE_MOD - 1)).2.2 = [1]
    ∧ ∀ t ∈ (accept_new_streams [.conn ⟨1, [], []⟩ 0] [] 0
        (USIZE_MOD - 1)).2.2, t ≠ 0 :=
  ⟨by decide,
    (accept_new_streams_tokens [.conn ⟨1, [], []⟩ 0] [] 0 (USIZE_MOD - 1)).2.1⟩

theorem iterCounterAt_eq (k : Nat) : iterCounterAt k = k % USIZE_MOD := by
  induction k with
  | zero => simp [iterCounterAt]
  | succ n ih =>
    have hM : USIZE_MOD = 18446744073709551616 := by norm_num [USIZE_MOD]
    simp only [iterCounterAt, ih, hM]
    omega

theorem iterCounterAt_mod128 (k : Nat) : iterCounterAt k % 128 = k % 128 := by
  rw [iterCounterAt_eq]
  have hdvd : (128 : Nat) ∣ USIZE_MOD := by norm_num [USIZE_MOD]
  exact Nat.mod_mod_of_dvd k hdvd

/-- C9: in the socket-worker poll loop, `remove_inactive_connections` runs on
exactly the iterations whose `iter_counter` is ≡ 0 (mod 128); with the
counter starting at 0 and wrapping-incremented once per iteration these are
exactly the iterations of index ≡ 0 (mod 128), so every window of 128
consecutive iterations contains an eviction — at most 128 poll iterations
elapse between consecutive evictions. -/
theorem eviction_every_128_iterations (now : Nat) (st : IterState) (k : Nat) :
    ((socket_worker_iteration now st).2 = true ↔ st.iter_counter % 128 = 0)
    ∧ ((socket_worker_iteration now st).2 = true →
        (socket_worker_iteration now st).1.conns
          = remove_inactive_connections now st.conns)
    ∧ ((socket_worker_iteration now st).2 = false →
        (socket_worker_iteration now st).1.conns = st.conns)
    ∧ (iterCounterAt k % 128 = 0 ↔ k % 128 = 0)
    ∧ (∃ j, k ≤ j ∧ j < k + 128 ∧ iterCounterAt j % 128 = 0) := by
  refine ⟨by simp [socket_worker_iteration], ?_, ?_,
    by rw [iterCounterAt_mod128], ?_⟩
  · intro h
    simp only [socket_worker_iteration, decide_eq_true_eq] at h
    simp [socket_worker_iteration, h]
  · intro h
    simp only [socket_worker_iteration, decide_eq_false_iff_not] at h
    simp [socket_worker_iteration, h]
  · refine ⟨k + (128 - k % 128) % 128, by omega, by omega, ?_⟩
    rw [iterCounterAt_mod128]
    omega

theorem eviction_every_128_iterations_witness :
    (socket_worker_iteration 0 ⟨[], 5⟩).2 = false
    ∧ (socket_worker_iteration 0 ⟨[], 5⟩).1.conns = [] :=
  ⟨by decide, (eviction_every_128_iterations 0 ⟨[], 5⟩ 0).2.2.1 (by decide)⟩

/-- C10: a drained out-message is written to a connection only if the
connection under the message's token is established and its recorded peer
address equals the peer address in the message's metadata; when the
addresses differ the message is silently discarded and the connection map —
in particular that connection — is left untouched, so a response produced
for one peer is never written to a different peer that later acquired the
recycled token. -/
theorem out_message_peer_addr_guard (conns : ConnMap) (meta : ConnectionMeta)
    (msg : WsMsg) :
    ((send_one conns meta msg).2 = true →
      ∃ c, connFind conns meta.poll_token = some c ∧ c.state = .established
        ∧ c.ws.peer_addr = meta.peer_addr)
    ∧ (∀ c, connFind conns meta.poll_token = some c → c.state = .established →
        c.ws.peer_addr ≠ meta.peer_addr →
        send_one conns meta msg = (conns, false)) := by
  constructor
  · intro hw
    rcases hf : connFind conns meta.poll_token with _ | c
    · simp [send_one, hf] at hw
    · rcases hs : c.state with n | _
      · simp [send_one, hf, hs] at hw
      · by_cases hpa : c.ws.peer_addr = meta.peer_addr
        · exact ⟨c, rfl, hs, hpa⟩
        · simp [send_one, hf, hs, hpa] at hw
  · intro c hf hs hpa
    simp [send_one, hf, hs, hpa]

theorem out_message_peer_addr_guard_witness :
    connFind [(3, (⟨9, .established, ⟨5, [], [.ok]⟩⟩ : Connection))] 3
        = some (⟨9, .established, ⟨5, [], [.ok]⟩⟩ : Connection)
    ∧ send_one [(3, (⟨9, .established, ⟨5, [], [.ok]⟩⟩ : Connection))]
        ⟨0, 3, 6⟩ 0
        = ([(3, (⟨9, .established, ⟨5, [], [.ok]⟩⟩ : Connection))], false) :=
  ⟨by decide, (out_message_peer_addr_guard
      [(3, (⟨9, .established, ⟨5, [], [.ok]⟩⟩ : Connection))] ⟨0, 3, 6⟩ 0).2
    (⟨9, .established, ⟨5, [], [.ok]⟩⟩ : Connection) (by decide) rfl (by decide)⟩

end Aquatic
